import Mathlib

/-!
Verification of the dataset-adapter module `torch_datasets.py` of the
occupation-detection-on-satellite-imagery repository.

The module defines two adapters:
* `EdfDataset` — pairs an image file with a label image, decomposes the label
  image into per-instance boolean masks (`extract_masks_from_cluster`),
  derives one bounding box per instance (`extract_bboxes_from_mask` applied to
  `np.dstack` of the mask stack) and assembles a target record.
* `CrowdDataset` — reads COCO-style annotation records, drops the ones flagged
  `iscrowd`, decodes each surviving record to a mask, derives boxes the same
  way, drops instances whose derived box is degenerate, and assembles a
  target record.

The helper module `my_utils.py` (holding `load_image_as_np_array`,
`extract_masks_from_cluster` and `extract_bboxes_from_mask`) is not part of
the sources; those two numeric routines are modelled from the specification
(section 4.1 and 4.2), as marked on their doc comments.  External
collaborators (PIL image decoding, the COCO loader, torch tensor
construction) are modelled as opaque parameters; `np.dstack` is modelled
faithfully after numpy semantics.  Grids are lists of rows; a pixel value
`grid[r][c]` is read with `List.getD` so that out-of-range reads are the
background value, and shape hypotheses state rectangularity where numpy
guarantees it.
-/

namespace SatDatasets

/-- A 2D boolean instance mask, stored as a list of rows. -/
abbrev Mask := List (List Bool)

/-- A 2D label image: integer cluster identifiers, 0 = background. -/
abbrev LabelImage := List (List Nat)

/-- Axis-aligned bounding box in `(x0, y0, x1, y1)` format: `x` is the column
index, `y` the row index, `x1`/`y1` exclusive upper bounds. -/
structure BBox where
  x0 : Nat
  y0 : Nat
  x1 : Nat
  y1 : Nat
deriving DecidableEq, Repr

/-- The pixel `(r, c)` of mask `m` is true (out-of-range reads are false). -/
def trueAt (m : Mask) (r c : Nat) : Prop := (m.getD r []).getD c false = true

instance (m : Mask) (r c : Nat) : Decidable (trueAt m r c) := by
  unfold trueAt; infer_instance

/-- The list of coordinates `(r, c)` of all true pixels of a mask, rows first. -/
def truePixels (m : Mask) : List (Nat × Nat) :=
  ((List.range m.length).map (fun r =>
    ((List.range (m.getD r []).length).filter (fun c =>
      (m.getD r []).getD c false)).map (fun c => (r, c)))).flatten

/-- Modelled from the spec: the per-instance body of `extract_bboxes_from_mask`
(`my_utils.py`, absent from the sources).  For a mask with at least one true
pixel it returns `(min col, min row, max col + 1, max row + 1)` (spec section
4.2); for an empty mask it emits the zero-area sentinel box `(0,0,0,0)`, the
variant the spec allows and that `CrowdDataset`'s degenerate-box filter
relies on. -/
def bboxOfMask (m : Mask) : BBox :=
  match truePixels m with
  | [] => ⟨0, 0, 0, 0⟩
  | p :: ps =>
      ⟨(ps.map Prod.snd).foldl min p.2, (ps.map Prod.fst).foldl min p.1,
       (ps.map Prod.snd).foldl max p.2 + 1, (ps.map Prod.fst).foldl max p.1 + 1⟩

/-- The largest pixel value of a label image (0 for an empty image). -/
def maxValImg (img : LabelImage) : Nat := img.flatten.foldl max 0

/-- The distinct nonzero cluster values of a label image, in ascending order. -/
def clusterValues (img : LabelImage) : List Nat :=
  (List.range (maxValImg img + 1)).filter (fun v => decide (v ≠ 0 ∧ v ∈ img.flatten))

/-- The boolean mask of the pixels of `img` holding value `v`. -/
def maskOfValue (img : LabelImage) (v : Nat) : Mask :=
  img.map (fun row => row.map (fun p => p == v))

/-- Modelled from the spec: `extract_masks_from_cluster` (`my_utils.py`, absent
from the sources).  Spec section 4.1: one boolean mask per distinct nonzero
value of the label image, in ascending value order, each mask the equality
test of the image against that value; called with `bool_array=True` and
`ch_first=True`, so the instance axis of its result comes first. -/
def extract_masks_from_cluster (img : LabelImage) : List Mask :=
  (clusterValues img).map (maskOfValue img)

/-- Model of `np.dstack` on a sequence of 2D masks: stacks along a new third
axis, giving `A[r][c][k] = masks[k][r][c]`.  An empty sequence raises
(`np.concatenate` of nothing), modelled as `none`.  Heights and widths are
read off the first mask; numpy would raise on mismatched shapes, which the
rectangularity hypotheses of the theorems below rule out. -/
def dstack (masks : List Mask) : Option (List (List (List Bool))) :=
  match masks with
  | [] => none
  | m₀ :: _ =>
      some ((List.range m₀.length).map (fun r =>
        (List.range (m₀.headD []).length).map (fun c =>
          masks.map (fun m => (m.getD r []).getD c false))))

/-- Slices a depth-stacked array back into its sequence of 2D masks
(`masks[k][r][c] = A[r][c][k]`), the number of slices read off the innermost
length. -/
def unstackLast (A : List (List (List Bool))) : List Mask :=
  (List.range ((A.headD []).headD []).length).map (fun k =>
    A.map (fun row => row.map (fun cell => cell.getD k false)))

/-- Modelled from the spec: `extract_bboxes_from_mask` (`my_utils.py`, absent
from the sources).  Spec section 4.2 gives the per-instance min/max box
formula; both call sites in `torch_datasets.py` pass the result of
`np.dstack`, whose instance axis is the last one, so the model slices the
last axis and applies `bboxOfMask` to each instance mask. -/
def extract_bboxes_from_mask (A : List (List (List Bool))) : List BBox :=
  (unstackLast A).map bboxOfMask

/-- The validity test of `CrowdDataset.__getitem__` line 128:
`(boxes[:,3] > boxes[:,1]) & (boxes[:,2] > boxes[:,0])`. -/
def keepFn (b : BBox) : Bool := decide (b.y0 < b.y1) && decide (b.x0 < b.x1)

/-- Boolean-mask indexing `l[k]` of numpy/torch: keep the entries of `l`
whose position holds `true` in `k`. -/
def boolIndex {α : Type} (l : List α) (k : List Bool) : List α :=
  ((l.zip k).filter (fun p => p.2)).map (fun p => p.1)

/-- One COCO annotation record as the adapter consumes it: its crowd flag and
area are read verbatim, its mask is the output of `coco.annToMask`. -/
structure Ann where
  iscrowd : Nat
  area : Int
  mask : Mask
deriving DecidableEq, Repr

/-- The target record assembled by both adapters (tensor dtypes erased). -/
structure Target where
  boxes : List BBox
  labels : List Nat
  masks : List Mask
  image_id : List Int
  area : List Int
  iscrowd : List Nat
deriving DecidableEq, Repr

/-- `CrowdDataset.__getitem__` lines 113-114: the annotation records of one
image after the crowd filter `[obj for obj in anno if obj['iscrowd'] == 0]`. -/
def crowdAnno (annsOf : Int → List Ann) (image_id : Int) : List Ann :=
  (annsOf image_id).filter (fun a => a.iscrowd == 0)

/-- The argument `np.dstack(masks)` that `CrowdDataset.__getitem__` line 124
passes to the bbox extractor. -/
def crowdBBoxArg (annsOf : Int → List Ann) (image_id : Int) :
    Option (List (List (List Bool))) :=
  dstack ((crowdAnno annsOf image_id).map Ann.mask)

/-- `CrowdDataset.__init__` line 86: `sorted(self.coco.getImgIds())`. -/
def crowdImgIds (rawIds : List Int) : List Int :=
  List.insertionSort (· ≤ ·) rawIds

/-- `CrowdDataset.__getitem__` (transforms `None`): select the image id, fetch
the image, crowd-filter the annotations, decode masks, derive boxes from the
depth-stacked masks, drop degenerate boxes from boxes/labels/masks, and copy
area and crowd flags verbatim from the filtered annotation records.  `none`
models an exception escaping the call. -/
def crowdGetItem {Img : Type} (imgsOf : Int → Img) (annsOf : Int → List Ann)
    (img_ids : List Int) (idx : Nat) : Option (Img × Target) :=
  match img_ids[idx]? with
  | none => none
  | some image_id =>
      let image := imgsOf image_id
      let anno := crowdAnno annsOf image_id
      let classes := List.replicate anno.length (1 : Nat)
      let masks := anno.map Ann.mask
      match crowdBBoxArg annsOf image_id with
      | none => none
      | some stacked =>
          let boxes := extract_bboxes_from_mask stacked
          let keep := boxes.map keepFn
          some (image,
            { boxes := boolIndex boxes keep,
              labels := boolIndex classes keep,
              masks := boolIndex masks keep,
              image_id := [image_id],
              area := anno.map Ann.area,
              iscrowd := anno.map Ann.iscrowd })

/-- The argument `np.dstack(mask_ch_first)` that `EdfDataset.__getitem__`
line 43 passes to the bbox extractor. -/
def edfBBoxArg (labelImg : LabelImage) : Option (List (List (List Bool))) :=
  dstack (extract_masks_from_cluster labelImg)

/-- `EdfDataset.__getitem__` (transforms `None`), with the externally decoded
image and label image passed in for the index: decompose the label image into
channel-first masks, derive boxes from the depth-stacked masks, and assemble
the target with labels all 1, crowd flags all 0, `image_id = [idx]` and area
`(boxes[:,3]-boxes[:,1])*(boxes[:,2]-boxes[:,0])`.  `none` models an
exception escaping the call. -/
def edfGetItem {Img : Type} (img : Img) (labelImg : LabelImage) (idx : Nat) :
    Option (Img × Target) :=
  let mask_ch_first := extract_masks_from_cluster labelImg
  match edfBBoxArg labelImg with
  | none => none
  | some stacked =>
      let bboxes := extract_bboxes_from_mask stacked
      let num := mask_ch_first.length
      some (img,
        { boxes := bboxes,
          labels := List.replicate num 1,
          masks := mask_ch_first,
          image_id := [(idx : Int)],
          area := bboxes.map (fun b => (((b.y1 - b.y0) * (b.x1 - b.x0) : Nat) : Int)),
          iscrowd := List.replicate num 0 })

/-- Python's `s[-9:-4]` on a path modelled as a character list: clamped slice
from `len-9` to `len-4` (Nat subtraction clamps at 0 exactly as python's
negative-index clamping does here). -/
def tailSlice (s : List Char) : List Char :=
  (s.take (s.length - 4)).drop (s.length - 9)

/-- `EdfDataset.check`: walk the zipped path lists; on the first pair whose
`[-9:-4]` slices differ, print one warning and `break`.  The returned list
holds the printed warnings. -/
def edfCheckWarnings : List (List Char) → List (List Char) → List String
  | i :: is, j :: js =>
      if tailSlice i = tailSlice j then edfCheckWarnings is js
      else ["Image and label do not match."]
  | _, _ => []

/-- The number of mismatched pairs among the zipped path lists. -/
def mismatchCount (imgs masks : List (List Char)) : Nat :=
  (imgs.zip masks).countP (fun p => decide (tailSlice p.1 ≠ tailSlice p.2))

/-- The number of distinct nonzero cluster values of a label image, stated
independently of `clusterValues`. -/
def nonzeroValueCount (img : LabelImage) : Nat :=
  ((img.flatten.filter (fun v => v != 0)).dedup).length

/-! Helper lemmas about folds of `min` and `max` over lists of naturals. -/

theorem foldl_min_le_init (x : Nat) (l : List Nat) : l.foldl min x ≤ x := by
  induction l generalizing x with
  | nil => simp
  | cons a l ih => exact le_trans (ih (min x a)) (min_le_left x a)

theorem foldl_min_le_mem {y : Nat} {l : List Nat} (x : Nat) (hy : y ∈ l) :
    l.foldl min x ≤ y := by
  induction l generalizing x with
  | nil => cases hy
  | cons a l ih =>
      rcases List.mem_cons.mp hy with rfl | hy
      · exact le_trans (foldl_min_le_init (min x y) l) (min_le_right x y)
      · exact ih (min x a) hy

theorem foldl_min_eq_init_or_mem (x : Nat) (l : List Nat) :
    l.foldl min x = x ∨ l.foldl min x ∈ l := by
  induction l generalizing x with
  | nil => exact Or.inl rfl
  | cons a l ih =>
      rcases ih (min x a) with h | h
      · rcases min_choice x a with hm | hm
        · exact Or.inl (by rw [List.foldl_cons, h, hm])
        · exact Or.inr (by rw [List.foldl_cons, h, hm]; exact List.mem_cons_self a l)
      · exact Or.inr (List.mem_cons_of_mem a h)

theorem le_foldl_max_init (x : Nat) (l : List Nat) : x ≤ l.foldl max x := by
  induction l generalizing x with
  | nil => simp
  | cons a l ih => exact le_trans (le_max_left x a) (ih (max x a))

theorem mem_le_foldl_max {y : Nat} {l : List Nat} (x : Nat) (hy : y ∈ l) :
    y ≤ l.foldl max x := by
  induction l generalizing x with
  | nil => cases hy
  | cons a l ih =>
      rcases List.mem_cons.mp hy with rfl | hy
      · exact le_trans (le_max_right x y) (le_foldl_max_init (max x y) l)
      · exact ih (max x a) hy

theorem foldl_max_eq_init_or_mem (x : Nat) (l : List Nat) :
    l.foldl max x = x ∨ l.foldl max x ∈ l := by
  induction l generalizing x with
  | nil => exact Or.inl rfl
  | cons a l ih =>
      rcases ih (max x a) with h | h
      · rcases max_choice x a with hm | hm
        · exact Or.inl (by rw [List.foldl_cons, h, hm])
        · exact Or.inr (by rw [List.foldl_cons, h, hm]; exact List.mem_cons_self a l)
      · exact Or.inr (List.mem_cons_of_mem a h)

/-! Membership in the true-pixel list. -/

theorem trueAt_of_mem_truePixels {m : Mask} {r c : Nat}
    (h : (r, c) ∈ truePixels m) : trueAt m r c := by
  unfold truePixels at h
  rw [List.mem_flatten] at h
  obtain ⟨l, hl, hrc⟩ := h
  rw [List.mem_map] at hl
  obtain ⟨r1, _, rfl⟩ := hl
  rw [List.mem_map] at hrc
  obtain ⟨c1, hc1, heq⟩ := hrc
  obtain ⟨rfl, rfl⟩ := Prod.mk.injEq .. ▸ heq
  exact (List.mem_filter.mp hc1).2

theorem mem_truePixels_of_trueAt {m : Mask} {r c : Nat}
    (h : trueAt m r c) : (r, c) ∈ truePixels m := by
  have h2 : (m.getD r []).getD c false = true := h
  have hr : r < m.length := by
    by_contra hr
    rw [List.getD_eq_default _ _ (Nat.le_of_not_lt hr)] at h2
    rw [List.getD_eq_default _ _ (Nat.zero_le c)] at h2
    cases h2
  have hc : c < (m.getD r []).length := by
    by_contra hc
    rw [List.getD_eq_default _ _ (Nat.le_of_not_lt hc)] at h2
    cases h2
  unfold truePixels
  rw [List.mem_flatten]
  refine ⟨((List.range (m.getD r []).length).filter (fun c =>
    (m.getD r []).getD c false)).map (fun c => (r, c)), ?_, ?_⟩
  · rw [List.mem_map]
    exact ⟨r, List.mem_range.mpr hr, rfl⟩
  · rw [List.mem_map]
    exact ⟨c, List.mem_filter.mpr ⟨List.mem_range.mpr hc, h2⟩, rfl⟩

/-! The extracted box bounds every true pixel and its edges are attained. -/

theorem bboxOfMask_bounds {m : Mask} {r c : Nat} (h : trueAt m r c) :
    (bboxOfMask m).x0 ≤ c ∧ c < (bboxOfMask m).x1 ∧
    (bboxOfMask m).y0 ≤ r ∧ r < (bboxOfMask m).y1 := by
  have hmem := mem_truePixels_of_trueAt h
  rcases hpx : truePixels m with _ | ⟨p, ps⟩
  · rw [hpx] at hmem; cases hmem
  · rw [hpx] at hmem
    have hbb : bboxOfMask m =
        ⟨(ps.map Prod.snd).foldl min p.2, (ps.map Prod.fst).foldl min p.1,
         (ps.map Prod.snd).foldl max p.2 + 1, (ps.map Prod.fst).foldl max p.1 + 1⟩ := by
      unfold bboxOfMask
      rw [hpx]
    rw [hbb]
    rcases List.mem_cons.mp hmem with rfl | hmem
    · refine ⟨foldl_min_le_init .., Nat.lt_succ_of_le (le_foldl_max_init ..),
        foldl_min_le_init .., Nat.lt_succ_of_le (le_foldl_max_init ..)⟩
    · have hc2 : c ∈ ps.map Prod.snd := List.mem_map.mpr ⟨(r, c), hmem, rfl⟩
      have hr2 : r ∈ ps.map Prod.fst := List.mem_map.mpr ⟨(r, c), hmem, rfl⟩
      exact ⟨foldl_min_le_mem _ hc2, Nat.lt_succ_of_le (mem_le_foldl_max _ hc2),
        foldl_min_le_mem _ hr2, Nat.lt_succ_of_le (mem_le_foldl_max _ hr2)⟩

theorem bboxOfMask_attained {m : Mask} {r c : Nat} (h : trueAt m r c) :
    (∃ rc ∈ truePixels m, rc.2 = (bboxOfMask m).x0) ∧
    (∃ rc ∈ truePixels m, rc.2 + 1 = (bboxOfMask m).x1) ∧
    (∃ rc ∈ truePixels m, rc.1 = (bboxOfMask m).y0) ∧
    (∃ rc ∈ truePixels m, rc.1 + 1 = (bboxOfMask m).y1) := by
  have hmem := mem_truePixels_of_trueAt h
  rcases hpx : truePixels m with _ | ⟨p, ps⟩
  · rw [hpx] at hmem; cases hmem
  · have hbb : bboxOfMask m =
        ⟨(ps.map Prod.snd).foldl min p.2, (ps.map Prod.fst).foldl min p.1,
         (ps.map Prod.snd).foldl max p.2 + 1, (ps.map Prod.fst).foldl max p.1 + 1⟩ := by
      unfold bboxOfMask
      rw [hpx]
    have hpin : p ∈ p :: ps := List.mem_cons_self p ps
    have hqin : ∀ q ∈ ps, q ∈ p :: ps := fun q hq => List.mem_cons_of_mem p hq
    rw [hbb]
    refine ⟨?_, ?_, ?_, ?_⟩
    · rcases foldl_min_eq_init_or_mem p.2 (ps.map Prod.snd) with he | he
      · exact ⟨p, hpin, he.symm⟩
      · obtain ⟨q, hq, hq2⟩ := List.mem_map.mp he
        exact ⟨q, hqin q hq, hq2⟩
    · rcases foldl_max_eq_init_or_mem p.2 (ps.map Prod.snd) with he | he
      · exact ⟨p, hpin, by rw [he]⟩
      · obtain ⟨q, hq, hq2⟩ := List.mem_map.mp he
        exact ⟨q, hqin q hq, by rw [hq2]⟩
    · rcases foldl_min_eq_init_or_mem p.1 (ps.map Prod.fst) with he | he
      · exact ⟨p, hpin, he.symm⟩
      · obtain ⟨q, hq, hq2⟩ := List.mem_map.mp he
        exact ⟨q, hqin q hq, hq2⟩
    · rcases foldl_max_eq_init_or_mem p.1 (ps.map Prod.fst) with he | he
      · exact ⟨p, hpin, by rw [he]⟩
      · obtain ⟨q, hq, hq2⟩ := List.mem_map.mp he
        exact ⟨q, hqin q hq, by rw [hq2]⟩

/-! Depth stacking and its inverse on rectangular mask stacks. -/

theorem rect_tabulate (m : Mask) (H W : Nat) (hH : m.length = H)
    (hW : ∀ row ∈ m, row.length = W) :
    (List.range H).map (fun r =>
      (List.range W).map (fun c => (m.getD r []).getD c false)) = m := by
  apply List.ext_getElem
  · simp [hH]
  · intro r hr1 hr2
    rw [List.getElem_map, List.getElem_range]
    apply List.ext_getElem
    · simp [hW m[r] (List.getElem_mem hr2)]
    · intro c hc1 hc2
      rw [List.getElem_map, List.getElem_range,
        List.getD_eq_getElem m [] hr2, List.getD_eq_getElem _ false hc2]

theorem dstack_unstack (masks : List Mask) (H W : Nat) (hne : masks ≠ [])
    (hH : ∀ m ∈ masks, m.length = H)
    (hW : ∀ m ∈ masks, ∀ row ∈ m, row.length = W)
    (h1 : 1 ≤ H) (h2 : 1 ≤ W) :
    ∃ A, dstack masks = some A ∧ unstackLast A = masks ∧ A.length = H ∧
      ∀ row ∈ A, row.length = W ∧ ∀ cell ∈ row, cell.length = masks.length := by
  rcases hmk : masks with _ | ⟨m₀, rest⟩
  · exact absurd hmk hne
  subst hmk
  have hm₀ : m₀ ∈ m₀ :: rest := List.mem_cons_self m₀ rest
  have hlen₀ : m₀.length = H := hH m₀ hm₀
  have hhead₀ : (m₀.headD []).length = W := by
    rcases m₀ with _ | ⟨row0, mrest⟩
    · rw [List.length_nil] at hlen₀; omega
    · exact hW _ hm₀ row0 (List.mem_cons_self row0 mrest)
  have hA : dstack (m₀ :: rest) =
      some ((List.range H).map (fun r => (List.range W).map (fun c =>
        (m₀ :: rest).map (fun m => (m.getD r []).getD c false)))) := by
    have h0 : dstack (m₀ :: rest) =
        some ((List.range m₀.length).map (fun r =>
          (List.range (m₀.headD []).length).map (fun c =>
            (m₀ :: rest).map (fun m => (m.getD r []).getD c false)))) := rfl
    rw [hlen₀, hhead₀] at h0
    exact h0
  refine ⟨_, hA, ?_, ?_, ?_⟩
  · -- slicing the last axis recovers the original mask sequence
    obtain ⟨H₁, rfl⟩ : ∃ H₁, H = H₁ + 1 := ⟨H - 1, by omega⟩
    obtain ⟨W₁, rfl⟩ : ∃ W₁, W = W₁ + 1 := ⟨W - 1, by omega⟩
    have hN : (((((List.range (H₁ + 1)).map (fun r =>
        (List.range (W₁ + 1)).map (fun c =>
          (m₀ :: rest).map (fun m => (m.getD r []).getD c false)))).headD
            []).headD []).length) = (m₀ :: rest).length := by
      simp [List.range_succ_eq_map, List.headD_cons]
    unfold unstackLast
    rw [hN]
    apply List.ext_getElem
    · simp
    · intro k hk1 hk2
      rw [List.getElem_map, List.getElem_range]
      have hcell : ∀ r c : Nat,
          (((m₀ :: rest).map (fun m => (m.getD r []).getD c false)).getD k false) =
          ((m₀ :: rest)[k].getD r []).getD c false := by
        intro r c
        rw [List.getD_eq_getElem _ false (by rw [List.length_map]; exact hk2),
          List.getElem_map]
      have hstep : (((List.range (H₁ + 1)).map (fun r =>
          (List.range (W₁ + 1)).map (fun c =>
            (m₀ :: rest).map (fun m => (m.getD r []).getD c false)))).map
            (fun row => row.map (fun cell => cell.getD k false))) =
          (List.range (H₁ + 1)).map (fun r => (List.range (W₁ + 1)).map (fun c =>
            ((m₀ :: rest)[k].getD r []).getD c false)) := by
        rw [List.map_map]
        apply List.map_congr_left
        intro r _
        simp only [Function.comp]
        rw [List.map_map]
        apply List.map_congr_left
        intro c _
        simp only [Function.comp]
        exact hcell r c
      rw [hstep]
      exact rect_tabulate _ _ _ (hH _ (List.getElem_mem hk2))
        (hW _ (List.getElem_mem hk2))
  · rw [List.length_map, List.length_range]
  · intro row hrow
    obtain ⟨r, _, rfl⟩ := List.mem_map.mp hrow
    constructor
    · rw [List.length_map, List.length_range]
    · intro cell hcell
      obtain ⟨c, _, rfl⟩ := List.mem_map.mp hcell
      rw [List.length_map]

theorem extract_bboxes_dstack (masks : List Mask) (H W : Nat) (hne : masks ≠ [])
    (hH : ∀ m ∈ masks, m.length = H)
    (hW : ∀ m ∈ masks, ∀ row ∈ m, row.length = W)
    (h1 : 1 ≤ H) (h2 : 1 ≤ W) :
    ∃ A, dstack masks = some A ∧
      extract_bboxes_from_mask A = masks.map bboxOfMask := by
  obtain ⟨A, hA, hUn, _, _⟩ := dstack_unstack masks H W hne hH hW h1 h2
  exact ⟨A, hA, by rw [extract_bboxes_from_mask, hUn]⟩

/-! The decomposed cluster values: membership, ordering, cardinality. -/

theorem mem_clusterValues {img : LabelImage} {v : Nat} :
    v ∈ clusterValues img ↔ v ≠ 0 ∧ v ∈ img.flatten := by
  unfold clusterValues
  rw [List.mem_filter, List.mem_range]
  constructor
  · rintro ⟨_, hv⟩
    exact of_decide_eq_true hv
  · intro h
    refine ⟨?_, decide_eq_true h⟩
    have hle : v ≤ img.flatten.foldl max 0 := mem_le_foldl_max 0 h.2
    unfold maxValImg
    omega

theorem clusterValues_sorted (img : LabelImage) :
    List.Sorted (· < ·) (clusterValues img) :=
  (List.pairwise_lt_range _).filter _

theorem clusterValues_nodup (img : LabelImage) : (clusterValues img).Nodup :=
  (clusterValues_sorted img).nodup

theorem clusterValues_length (img : LabelImage) :
    (clusterValues img).length = nonzeroValueCount img := by
  apply List.Perm.length_eq
  rw [List.perm_ext_iff_of_nodup (clusterValues_nodup img) (List.nodup_dedup _)]
  intro v
  rw [mem_clusterValues, List.mem_dedup, List.mem_filter, bne_iff_ne]
  exact and_comm

/-! Masks produced by the decomposer. -/

theorem trueAt_maskOfValue {img : LabelImage} {v r c : Nat}
    (h : trueAt (maskOfValue img v) r c) : (img.getD r []).getD c 0 = v := by
  have h2 : ((maskOfValue img v).getD r []).getD c false = true := h
  unfold maskOfValue at h2
  by_cases hr : r < img.length
  · rw [List.getD_eq_getElem _ [] (by rw [List.length_map]; exact hr),
      List.getElem_map] at h2
    by_cases hc : c < img[r].length
    · rw [List.getD_eq_getElem _ false (by rw [List.length_map]; exact hc),
        List.getElem_map] at h2
      rw [List.getD_eq_getElem img [] hr, List.getD_eq_getElem _ 0 hc]
      exact beq_iff_eq.mp h2
    · have hinner : (List.map (fun p => p == v) img[r]).getD c false = false := by
        apply List.getD_eq_default
        rw [List.length_map]
        exact Nat.le_of_not_lt hc
      rw [hinner] at h2
      cases h2
  · have houter : (List.map (fun row => List.map (fun p => p == v) row) img).getD
        r [] = [] := by
      apply List.getD_eq_default
      rw [List.length_map]
      exact Nat.le_of_not_lt hr
    rw [houter] at h2
    simp at h2

theorem extract_masks_shape {img : LabelImage} {H W : Nat} (hH : img.length = H)
    (hW : ∀ row ∈ img, row.length = W) :
    ∀ m ∈ extract_masks_from_cluster img, m.length = H ∧
      ∀ row ∈ m, row.length = W := by
  intro m hm
  obtain ⟨v, _, rfl⟩ := List.mem_map.mp hm
  constructor
  · unfold maskOfValue
    rw [List.length_map]
    exact hH
  · intro row hrow
    unfold maskOfValue at hrow
    obtain ⟨row0, hrow0, rfl⟩ := List.mem_map.mp hrow
    rw [List.length_map]
    exact hW row0 hrow0

theorem extract_masks_pairwise_disjoint (img : LabelImage) :
    List.Pairwise (fun m1 m2 => ∀ r c, ¬(trueAt m1 r c ∧ trueAt m2 r c))
      (extract_masks_from_cluster img) := by
  unfold extract_masks_from_cluster
  rw [List.pairwise_map]
  refine (clusterValues_sorted img).imp ?_
  intro v w hvw r c hboth
  have h1 := trueAt_maskOfValue hboth.1
  have h2 := trueAt_maskOfValue hboth.2
  exact absurd (h1.symm.trans h2) (Nat.ne_of_lt hvw)

/-! Boolean-mask indexing and the crowd filter. -/

theorem mem_boolIndex_map {α : Type} (f : α → Bool) {l : List α} {b : α}
    (h : b ∈ boolIndex l (l.map f)) : f b = true := by
  induction l with
  | nil => simp [boolIndex] at h
  | cons a l ih =>
      by_cases hfa : f a = true
      · simp only [boolIndex, List.map_cons, List.zip_cons_cons, List.filter_cons,
          hfa, if_true] at h
        rcases List.mem_cons.mp h with rfl | h
        · exact hfa
        · exact ih h
      · simp only [boolIndex, List.map_cons, List.zip_cons_cons, List.filter_cons,
          hfa] at h
        exact ih h

theorem boolIndex_sublist {α : Type} (l : List α) (k : List Bool) :
    ∀ b ∈ boolIndex l k, b ∈ l := by
  intro b hb
  unfold boolIndex at hb
  obtain ⟨p, hp, rfl⟩ := List.mem_map.mp hb
  exact (List.of_mem_zip (List.mem_filter.mp hp).1).1

theorem crowdAnno_iscrowd_zero (annsOf : Int → List Ann) (image_id : Int) :
    ∀ a ∈ crowdAnno annsOf image_id, a.iscrowd = 0 := by
  intro a ha
  exact beq_iff_eq.mp (List.mem_filter.mp ha).2

/-! Sorted image ids. -/

theorem crowdImgIds_perm (rawIds : List Int) :
    List.Perm (crowdImgIds rawIds) rawIds :=
  List.perm_insertionSort _ _

theorem crowdImgIds_sorted_lt {rawIds : List Int} (h : rawIds.Nodup) :
    List.Sorted (· < ·) (crowdImgIds rawIds) := by
  have hs : List.Sorted (· ≤ ·) (crowdImgIds rawIds) :=
    List.sorted_insertionSort _ _
  have hn : (crowdImgIds rawIds).Nodup :=
    (List.Perm.nodup_iff (crowdImgIds_perm rawIds)).mpr h
  exact hs.lt_of_le hn

/-! Normal forms of the two sample accessors under rectangular shapes. -/

theorem edfGetItem_eq {Img : Type} (img : Img) {labelImg : LabelImage}
    {H W : Nat} (hH : labelImg.length = H) (hW : ∀ row ∈ labelImg, row.length = W)
    (h1 : 1 ≤ H) (h2 : 1 ≤ W)
    (hne : extract_masks_from_cluster labelImg ≠ []) (idx : Nat) :
    edfGetItem img labelImg idx = some (img,
      { boxes := (extract_masks_from_cluster labelImg).map bboxOfMask,
        labels := List.replicate (extract_masks_from_cluster labelImg).length 1,
        masks := extract_masks_from_cluster labelImg,
        image_id := [(idx : Int)],
        area := ((extract_masks_from_cluster labelImg).map bboxOfMask).map
          (fun b => (((b.y1 - b.y0) * (b.x1 - b.x0) : Nat) : Int)),
        iscrowd := List.replicate (extract_masks_from_cluster labelImg).length 0 }) := by
  have hshape := extract_masks_shape hH hW
  obtain ⟨A, hA, hB⟩ := extract_bboxes_dstack (extract_masks_from_cluster labelImg)
    H W hne (fun m hm => (hshape m hm).1) (fun m hm => (hshape m hm).2) h1 h2
  unfold edfGetItem edfBBoxArg
  simp only [hA, hB]

theorem crowdGetItem_eq {Img : Type} (imgsOf : Int → Img) (annsOf : Int → List Ann)
    (img_ids : List Int) (idx : Nat) {image_id : Int}
    (hid : img_ids[idx]? = some image_id) {H W : Nat}
    (hne : crowdAnno annsOf image_id ≠ [])
    (hH : ∀ a ∈ crowdAnno annsOf image_id, a.mask.length = H)
    (hW : ∀ a ∈ crowdAnno annsOf image_id, ∀ row ∈ a.mask, row.length = W)
    (h1 : 1 ≤ H) (h2 : 1 ≤ W) :
    crowdGetItem imgsOf annsOf img_ids idx = some (imgsOf image_id,
      { boxes := boolIndex (((crowdAnno annsOf image_id).map Ann.mask).map bboxOfMask)
          ((((crowdAnno annsOf image_id).map Ann.mask).map bboxOfMask).map keepFn),
        labels := boolIndex (List.replicate (crowdAnno annsOf image_id).length 1)
          ((((crowdAnno annsOf image_id).map Ann.mask).map bboxOfMask).map keepFn),
        masks := boolIndex ((crowdAnno annsOf image_id).map Ann.mask)
          ((((crowdAnno annsOf image_id).map Ann.mask).map bboxOfMask).map keepFn),
        image_id := [image_id],
        area := (crowdAnno annsOf image_id).map Ann.area,
        iscrowd := (crowdAnno annsOf image_id).map Ann.iscrowd }) := by
  have hmne : (crowdAnno annsOf image_id).map Ann.mask ≠ [] := by
    intro hcon
    exact hne (List.map_eq_nil_iff.mp hcon)
  have hmH : ∀ m ∈ (crowdAnno annsOf image_id).map Ann.mask, m.length = H := by
    intro m hm
    obtain ⟨a, ha, rfl⟩ := List.mem_map.mp hm
    exact hH a ha
  have hmW : ∀ m ∈ (crowdAnno annsOf image_id).map Ann.mask,
      ∀ row ∈ m, row.length = W := by
    intro m hm
    obtain ⟨a, ha, rfl⟩ := List.mem_map.mp hm
    exact hW a ha
  obtain ⟨A, hA, hB⟩ := extract_bboxes_dstack ((crowdAnno annsOf image_id).map Ann.mask)
    H W hmne hmH hmW h1 h2
  unfold crowdGetItem crowdBBoxArg
  simp only [hid, hA, hB]

/-! Destructuring a successful sample access, with no shape assumptions. -/

theorem edfGetItem_fields {Img : Type} {img : Img} {labelImg : LabelImage}
    {idx : Nat} {im : Img} {t : Target}
    (h : edfGetItem img labelImg idx = some (im, t)) :
    im = img ∧ ∃ A, edfBBoxArg labelImg = some A ∧
      t = { boxes := extract_bboxes_from_mask A,
            labels := List.replicate (extract_masks_from_cluster labelImg).length 1,
            masks := extract_masks_from_cluster labelImg,
            image_id := [(idx : Int)],
            area := (extract_bboxes_from_mask A).map
              (fun b => (((b.y1 - b.y0) * (b.x1 - b.x0) : Nat) : Int)),
            iscrowd := List.replicate (extract_masks_from_cluster labelImg).length 0 } := by
  unfold edfGetItem at h
  cases harg : edfBBoxArg labelImg with
  | none =>
      simp only [harg] at h
      exact Option.noConfusion h
  | some A =>
      simp only [harg, Option.some.injEq, Prod.mk.injEq] at h
      exact ⟨h.1.symm, A, rfl, h.2.symm⟩

theorem crowdGetItem_fields {Img : Type} {imgsOf : Int → Img}
    {annsOf : Int → List Ann} {img_ids : List Int} {idx : Nat}
    {img : Img} {t : Target} {image_id : Int}
    (hid : img_ids[idx]? = some image_id)
    (h : crowdGetItem imgsOf annsOf img_ids idx = some (img, t)) :
    img = imgsOf image_id ∧ ∃ A, crowdBBoxArg annsOf image_id = some A ∧
      t = { boxes := boolIndex (extract_bboxes_from_mask A)
              ((extract_bboxes_from_mask A).map keepFn),
            labels := boolIndex (List.replicate (crowdAnno annsOf image_id).length 1)
              ((extract_bboxes_from_mask A).map keepFn),
            masks := boolIndex ((crowdAnno annsOf image_id).map Ann.mask)
              ((extract_bboxes_from_mask A).map keepFn),
            image_id := [image_id],
            area := (crowdAnno annsOf image_id).map Ann.area,
            iscrowd := (crowdAnno annsOf image_id).map Ann.iscrowd } := by
  unfold crowdGetItem at h
  rw [hid] at h
  cases harg : crowdBBoxArg annsOf image_id with
  | none =>
      simp only [harg] at h
      exact Option.noConfusion h
  | some A =>
      simp only [harg, Option.some.injEq, Prod.mk.injEq] at h
      exact ⟨h.1.symm, A, rfl, h.2.symm⟩

theorem crowdGetItem_index_lt {Img : Type} {imgsOf : Int → Img}
    {annsOf : Int → List Ann} {img_ids : List Int} {idx : Nat}
    {img : Img} {t : Target}
    (h : crowdGetItem imgsOf annsOf img_ids idx = some (img, t)) :
    ∃ hlt : idx < img_ids.length, t.image_id = [img_ids.get ⟨idx, hlt⟩] := by
  cases hid : img_ids[idx]? with
  | none =>
      unfold crowdGetItem at h
      rw [hid] at h
      simp at h
  | some image_id =>
      obtain ⟨hlt, hv⟩ := List.getElem?_eq_some.mp hid
      obtain ⟨-, A, -, ht⟩ := crowdGetItem_fields hid h
      subst ht
      exact ⟨hlt, by rw [List.get_eq_getElem, hv]⟩

/-- C1: the claim says boxes, labels, masks, area and iscrowd all share one
length N after all filters.  On an image holding one non-crowd annotation
with a nonempty mask and one non-crowd annotation with an all-false mask,
the degenerate-box filter shrinks boxes/labels/masks to length 1 while area
and iscrowd (built from the unfiltered `anno` list, lines 134-135) keep
length 2 — the code never applies `keep` to them, contradicting its own
docstring (`area: Tensor[N]`, `iscrowd: UInt8Tensor[N]`). -/
theorem crowd_array_length_mismatch :
    (crowdGetItem (fun _ => (0 : Nat))
      (fun j => if j = 7 then
          [⟨0, 17, [[true, false], [false, false]]⟩,
           ⟨0, 5, [[false, false], [false, false]]⟩] else [])
      (crowdImgIds [7]) 0).map (fun p =>
        (p.2.boxes.length, p.2.labels.length, p.2.masks.length,
         p.2.area.length, p.2.iscrowd.length)) = some (1, 1, 1, 2, 2) := rfl

/-- C2: every box emitted by `CrowdDataset.__getitem__` satisfies
`x1 > x0` and `y1 > y0`, the iscrowd array of the target holds only zeros,
and every emitted mask comes from a non-crowd annotation record, so a
crowd-flagged annotation never produces an output instance. -/
theorem crowd_post_filter_invariant {Img : Type} (imgsOf : Int → Img)
    (annsOf : Int → List Ann) (img_ids : List Int) (idx : Nat)
    {img : Img} {t : Target} {image_id : Int}
    (hid : img_ids[idx]? = some image_id)
    (h : crowdGetItem imgsOf annsOf img_ids idx = some (img, t)) :
    (∀ b ∈ t.boxes, b.x0 < b.x1 ∧ b.y0 < b.y1) ∧
    (∀ v ∈ t.iscrowd, v = 0) ∧
    (∀ m ∈ t.masks, ∃ a ∈ annsOf image_id, a.iscrowd = 0 ∧ a.mask = m) := by
  obtain ⟨-, A, -, ht⟩ := crowdGetItem_fields hid h
  subst ht
  refine ⟨?_, ?_, ?_⟩
  · intro b hb
    have hk := mem_boolIndex_map keepFn hb
    unfold keepFn at hk
    rw [Bool.and_eq_true] at hk
    exact ⟨of_decide_eq_true hk.2, of_decide_eq_true hk.1⟩
  · intro v hv
    obtain ⟨a, ha, rfl⟩ := List.mem_map.mp hv
    exact crowdAnno_iscrowd_zero annsOf image_id a ha
  · intro m hm
    have hm2 := boolIndex_sublist _ _ m hm
    obtain ⟨a, ha, rfl⟩ := List.mem_map.mp hm2
    exact ⟨a, (List.mem_filter.mp ha).1, crowdAnno_iscrowd_zero _ _ a ha, rfl⟩

/-- Witness for C2 at a concrete one-annotation image. -/
theorem crowd_post_filter_invariant_witness :
    (∀ b ∈ ((⟨[⟨0, 0, 1, 1⟩], [1], [[[true]]], [3], [4], [0]⟩ : Target)).boxes,
        b.x0 < b.x1 ∧ b.y0 < b.y1) ∧
    (∀ v ∈ ((⟨[⟨0, 0, 1, 1⟩], [1], [[[true]]], [3], [4], [0]⟩ : Target)).iscrowd,
        v = 0) ∧
    (∀ m ∈ ((⟨[⟨0, 0, 1, 1⟩], [1], [[[true]]], [3], [4], [0]⟩ : Target)).masks,
      ∃ a ∈ (fun (_ : Int) => [(⟨0, 4, [[true]]⟩ : Ann)]) 3,
        a.iscrowd = 0 ∧ a.mask = m) :=
  crowd_post_filter_invariant (fun _ => (0 : Nat))
    (fun _ => [⟨0, 4, [[true]]⟩]) (crowdImgIds [3]) 0 rfl rfl

/-- C3: for a mask with at least one true pixel, the extracted box bounds
exactly the true pixels — `x0`/`y0` are lower bounds attained by some true
pixel, `x1`/`y1` are the successors of attained upper bounds (exclusive
convention) — and the box area `(x1-x0)*(y1-y0)` is strictly positive. -/
theorem bbox_extractor_minmax {m : Mask} {r0 c0 : Nat} (h : trueAt m r0 c0) :
    (∀ r c, trueAt m r c → (bboxOfMask m).x0 ≤ c ∧ c < (bboxOfMask m).x1 ∧
      (bboxOfMask m).y0 ≤ r ∧ r < (bboxOfMask m).y1) ∧
    (∃ r c, trueAt m r c ∧ c = (bboxOfMask m).x0) ∧
    (∃ r c, trueAt m r c ∧ c + 1 = (bboxOfMask m).x1) ∧
    (∃ r c, trueAt m r c ∧ r = (bboxOfMask m).y0) ∧
    (∃ r c, trueAt m r c ∧ r + 1 = (bboxOfMask m).y1) ∧
    0 < ((bboxOfMask m).x1 - (bboxOfMask m).x0) *
      ((bboxOfMask m).y1 - (bboxOfMask m).y0) := by
  obtain ⟨hx, hx1, hy, hy1⟩ := bboxOfMask_attained h
  refine ⟨fun r c hrc => bboxOfMask_bounds hrc, ?_, ?_, ?_, ?_, ?_⟩
  · obtain ⟨rc, hin, he⟩ := hx
    exact ⟨rc.1, rc.2, trueAt_of_mem_truePixels hin, he⟩
  · obtain ⟨rc, hin, he⟩ := hx1
    exact ⟨rc.1, rc.2, trueAt_of_mem_truePixels hin, he⟩
  · obtain ⟨rc, hin, he⟩ := hy
    exact ⟨rc.1, rc.2, trueAt_of_mem_truePixels hin, he⟩
  · obtain ⟨rc, hin, he⟩ := hy1
    exact ⟨rc.1, rc.2, trueAt_of_mem_truePixels hin, he⟩
  · obtain ⟨hle, hlt, hle2, hlt2⟩ := bboxOfMask_bounds h
    exact Nat.mul_pos (by omega) (by omega)

/-- Witness for C3 at a concrete 1x2 mask whose single true pixel is (0,1). -/
theorem bbox_extractor_minmax_witness :
    trueAt [[false, true]] 0 1 ∧
    0 < ((bboxOfMask [[false, true]]).x1 - (bboxOfMask [[false, true]]).x0) *
      ((bboxOfMask [[false, true]]).y1 - (bboxOfMask [[false, true]]).y0) :=
  ⟨by decide, (bbox_extractor_minmax
    (show trueAt [[false, true]] 0 1 by decide)).2.2.2.2.2⟩

/-- C4: on any label image the decomposer yields exactly as many masks as
there are distinct nonzero cluster values, each mask of the input shape,
the stack ordered by strictly ascending cluster value (one mask per value
present), and the masks pairwise disjoint. -/
theorem decomposer_count_shape_order_disjoint (img : LabelImage) :
    (extract_masks_from_cluster img).length = nonzeroValueCount img ∧
    (∀ m ∈ extract_masks_from_cluster img, m.length = img.length ∧
      ∀ i : Nat, (m.getD i []).length = (img.getD i []).length) ∧
    (∃ vs : List Nat, List.Sorted (· < ·) vs ∧
      (∀ v, v ∈ vs ↔ v ≠ 0 ∧ v ∈ img.flatten) ∧
      extract_masks_from_cluster img = vs.map (maskOfValue img)) ∧
    List.Pairwise (fun m1 m2 => ∀ r c, ¬(trueAt m1 r c ∧ trueAt m2 r c))
      (extract_masks_from_cluster img) := by
  refine ⟨?_, ?_, ⟨clusterValues img, clusterValues_sorted img,
    fun v => mem_clusterValues, rfl⟩, extract_masks_pairwise_disjoint img⟩
  · rw [extract_masks_from_cluster, List.length_map, clusterValues_length]
  · intro m hm
    obtain ⟨v, -, rfl⟩ := List.mem_map.mp hm
    constructor
    · rw [maskOfValue, List.length_map]
    · intro i
      unfold maskOfValue
      by_cases hi : i < img.length
      · rw [List.getD_eq_getElem _ [] (by rw [List.length_map]; exact hi),
          List.getElem_map, List.length_map, List.getD_eq_getElem img [] hi]
      · rw [List.getD_eq_default _ _
          (by rw [List.length_map]; exact Nat.le_of_not_lt hi),
          List.getD_eq_default _ _ (Nat.le_of_not_lt hi)]
        rfl

/-- C5 (counterexample): the claim says the argument passed to the bbox
extractor has the instance count on its FIRST axis.  On the 2x2 label image
`[[1,0],[0,0]]` there is exactly one instance, yet the stacked argument
built by `np.dstack` has first-axis length 2 (the image height): the
instance axis is the last one, not the first. -/
theorem bbox_arg_first_axis_counterexample :
    (extract_masks_from_cluster [[1, 0], [0, 0]]).length = 1 ∧
    edfBBoxArg [[1, 0], [0, 0]] = some [[[true], [false]], [[false], [false]]] ∧
    ([[[true], [false]], [[false], [false]]] : List (List (List Bool))).length ≠
      (extract_masks_from_cluster [[1, 0], [0, 0]]).length :=
  ⟨rfl, rfl, by decide⟩

/-- C5 (amended): in every successful sample access of either adapter the
argument passed to the bbox extractor is a 3D stack of shape
height x width x instance-count — the LAST axis indexes the instances, all
masks share identical height and width, and slicing the last axis recovers
exactly the per-instance boolean masks. -/
theorem bbox_arg_instance_axis_last :
    (∀ (labelImg : LabelImage) (H W : Nat), labelImg.length = H →
      (∀ row ∈ labelImg, row.length = W) → 1 ≤ H → 1 ≤ W →
      extract_masks_from_cluster labelImg ≠ [] →
      ∃ A, edfBBoxArg labelImg = some A ∧ A.length = H ∧
        (∀ row ∈ A, row.length = W ∧ ∀ cell ∈ row,
          cell.length = (extract_masks_from_cluster labelImg).length) ∧
        unstackLast A = extract_masks_from_cluster labelImg) ∧
    (∀ (annsOf : Int → List Ann) (image_id : Int) (H W : Nat),
      crowdAnno annsOf image_id ≠ [] →
      (∀ a ∈ crowdAnno annsOf image_id, a.mask.length = H) →
      (∀ a ∈ crowdAnno annsOf image_id, ∀ row ∈ a.mask, row.length = W) →
      1 ≤ H → 1 ≤ W →
      ∃ A, crowdBBoxArg annsOf image_id = some A ∧ A.length = H ∧
        (∀ row ∈ A, row.length = W ∧ ∀ cell ∈ row,
          cell.length = (crowdAnno annsOf image_id).length) ∧
        unstackLast A = (crowdAnno annsOf image_id).map Ann.mask) := by
  constructor
  · intro labelImg H W hH hW h1 h2 hne
    have hs := extract_masks_shape hH hW
    obtain ⟨A, hA, hUn, hLen, hrows⟩ := dstack_unstack _ H W hne
      (fun m hm => (hs m hm).1) (fun m hm => (hs m hm).2) h1 h2
    exact ⟨A, hA, hLen, hrows, hUn⟩
  · intro annsOf image_id H W hne hH hW h1 h2
    have hmne : (crowdAnno annsOf image_id).map Ann.mask ≠ [] := by
      intro hcon
      exact hne (List.map_eq_nil_iff.mp hcon)
    have hmH : ∀ m ∈ (crowdAnno annsOf image_id).map Ann.mask, m.length = H := by
      intro m hm
      obtain ⟨a, ha, rfl⟩ := List.mem_map.mp hm
      exact hH a ha
    have hmW : ∀ m ∈ (crowdAnno annsOf image_id).map Ann.mask,
        ∀ row ∈ m, row.length = W := by
      intro m hm
      obtain ⟨a, ha, rfl⟩ := List.mem_map.mp hm
      exact hW a ha
    obtain ⟨A, hA, hUn, hLen, hrows⟩ := dstack_unstack _ H W hmne hmH hmW h1 h2
    refine ⟨A, hA, hLen, ?_, hUn⟩
    intro row hrow
    refine ⟨(hrows row hrow).1, ?_⟩
    intro cell hcell
    rw [(hrows row hrow).2 cell hcell, List.length_map]

/-- Witness for the amended C5 on both adapters. -/
theorem bbox_arg_instance_axis_last_witness :
    (∃ A, edfBBoxArg [[1, 0], [0, 0]] = some A ∧ A.length = 2 ∧
      (∀ row ∈ A, row.length = 2 ∧ ∀ cell ∈ row,
        cell.length = (extract_masks_from_cluster [[1, 0], [0, 0]]).length) ∧
      unstackLast A = extract_masks_from_cluster [[1, 0], [0, 0]]) ∧
    (∃ A, crowdBBoxArg (fun _ => [⟨0, 4, [[true]]⟩]) 3 = some A ∧ A.length = 1 ∧
      (∀ row ∈ A, row.length = 1 ∧ ∀ cell ∈ row,
        cell.length = (crowdAnno (fun _ => [⟨0, 4, [[true]]⟩]) 3).length) ∧
      unstackLast A = (crowdAnno (fun _ => [⟨0, 4, [[true]]⟩]) 3).map Ann.mask) :=
  ⟨bbox_arg_instance_axis_last.1 [[1, 0], [0, 0]] 2 2 rfl (by decide)
      (by decide) (by decide) (by decide),
   bbox_arg_instance_axis_last.2 (fun _ => [⟨0, 4, [[true]]⟩]) 3 1 1
      (by decide) (by decide) (by decide) (by decide) (by decide)⟩

/-- C6: in the external-annotation adapter the area and iscrowd arrays of the
returned target are the verbatim per-record values of the crowd-filtered
annotation list — copied, not recomputed from the derived boxes, so a
record's stored area is free to differ from its derived box area. -/
theorem crowd_area_iscrowd_verbatim {Img : Type} (imgsOf : Int → Img)
    (annsOf : Int → List Ann) (img_ids : List Int) (idx : Nat)
    {img : Img} {t : Target} {image_id : Int}
    (hid : img_ids[idx]? = some image_id)
    (h : crowdGetItem imgsOf annsOf img_ids idx = some (img, t)) :
    t.area = (crowdAnno annsOf image_id).map Ann.area ∧
    t.iscrowd = (crowdAnno annsOf image_id).map Ann.iscrowd := by
  obtain ⟨-, A, -, ht⟩ := crowdGetItem_fields hid h
  subst ht
  exact ⟨rfl, rfl⟩

/-- Witness for C6 at an image whose surviving annotation stores area 17
while its derived box has area 1. -/
theorem crowd_area_iscrowd_verbatim_witness :
    (⟨[⟨0, 0, 1, 1⟩], [1], [[[true, false], [false, false]]],
        [7], [17, 5], [0, 0]⟩ : Target).area =
      (crowdAnno (fun j => if j = 7 then
          [⟨0, 17, [[true, false], [false, false]]⟩,
           ⟨0, 5, [[false, false], [false, false]]⟩] else []) 7).map Ann.area ∧
    (⟨[⟨0, 0, 1, 1⟩], [1], [[[true, false], [false, false]]],
        [7], [17, 5], [0, 0]⟩ : Target).iscrowd =
      (crowdAnno (fun j => if j = 7 then
          [⟨0, 17, [[true, false], [false, false]]⟩,
           ⟨0, 5, [[false, false], [false, false]]⟩] else []) 7).map Ann.iscrowd :=
  crowd_area_iscrowd_verbatim (fun _ => (0 : Nat))
    (fun j => if j = 7 then
        [⟨0, 17, [[true, false], [false, false]]⟩,
         ⟨0, 5, [[false, false], [false, false]]⟩] else [])
    (crowdImgIds [7]) 0 rfl rfl

/-- C7: every sample the local adapter returns assigns class label 1 and
crowd flag 0 to every instance, and its area array is exactly the
`(x1-x0)*(y1-y0)` products of the derived boxes. -/
theorem edf_label_area_assignment {Img : Type} (img : Img)
    (labelImg : LabelImage) (idx : Nat) {im : Img} {t : Target}
    (h : edfGetItem img labelImg idx = some (im, t)) :
    (∀ l ∈ t.labels, l = 1) ∧ (∀ v ∈ t.iscrowd, v = 0) ∧
    t.area = t.boxes.map (fun b => (((b.x1 - b.x0) * (b.y1 - b.y0) : Nat) : Int)) := by
  obtain ⟨-, A, -, ht⟩ := edfGetItem_fields h
  subst ht
  refine ⟨?_, ?_, ?_⟩
  · intro l hl
    exact (List.mem_replicate.mp hl).2
  · intro v hv
    exact (List.mem_replicate.mp hv).2
  · apply List.map_congr_left
    intro b _
    exact congrArg _ (Nat.mul_comm _ _)

/-- Witness for C7 at the 1x1 label image `[[1]]`. -/
theorem edf_label_area_assignment_witness :
    (∀ l ∈ (⟨[⟨0, 0, 1, 1⟩], [1], [[[true]]], [5], [1], [0]⟩ : Target).labels,
        l = 1) ∧
    (∀ v ∈ (⟨[⟨0, 0, 1, 1⟩], [1], [[[true]]], [5], [1], [0]⟩ : Target).iscrowd,
        v = 0) ∧
    (⟨[⟨0, 0, 1, 1⟩], [1], [[[true]]], [5], [1], [0]⟩ : Target).area =
      (⟨[⟨0, 0, 1, 1⟩], [1], [[[true]]], [5], [1], [0]⟩ : Target).boxes.map
        (fun b => (((b.x1 - b.x0) * (b.y1 - b.y0) : Nat) : Int)) :=
  edf_label_area_assignment (0 : Nat) [[1]] 5 rfl

/-- C8: the claim says an image with zero valid (non-crowd) annotations still
yields a sample with empty instance arrays.  The code instead raises: with
every annotation crowd-flagged the filtered list is empty, `np.dstack` of an
empty sequence raises `ValueError`, and the accessor never returns — the
model evaluates to `none` where the claim requires a successful `N = 0`
sample. -/
theorem crowd_zero_valid_annotations_raises :
    crowdAnno (fun _ => [⟨1, 3, [[true]]⟩]) 2 = [] ∧
    crowdGetItem (fun _ => (0 : Nat)) (fun _ => [⟨1, 3, [[true]]⟩])
      (crowdImgIds [2]) 0 = none :=
  ⟨rfl, rfl⟩

/-- C9 (counterexample): the claim says the consistency check reports EVERY
filename mismatch.  On paired lists whose two pairs both mismatch in the
`[-9:-4]` slice, the check prints a single generic warning and `break`s, so
only one warning is emitted for two mismatches. -/
theorem edf_check_reports_only_first_mismatch :
    mismatchCount ["abcde.png".toList, "11111.png".toList]
      ["vwxyz.png".toList, "22222.png".toList] = 2 ∧
    edfCheckWarnings ["abcde.png".toList, "11111.png".toList]
      ["vwxyz.png".toList, "22222.png".toList] =
      ["Image and label do not match."] :=
  ⟨rfl, rfl⟩

/-- C9 (amended): the check walks the zipped path lists comparing the
fixed-width trailing slice `[-9:-4]` of each pair; it emits a warning (never
an exception) exactly when some zipped pair mismatches, and at most one
warning — it stops at the first mismatch instead of reporting every one.
Sample retrieval never invokes it. -/
theorem edf_check_warning_iff_mismatch (imgs masks : List (List Char)) :
    (edfCheckWarnings imgs masks ≠ [] ↔ 0 < mismatchCount imgs masks) ∧
    (edfCheckWarnings imgs masks).length ≤ 1 := by
  induction imgs generalizing masks with
  | nil =>
      constructor
      · simp [edfCheckWarnings, mismatchCount]
      · simp [edfCheckWarnings]
  | cons i is ih =>
      cases masks with
      | nil => constructor <;> simp [edfCheckWarnings, mismatchCount]
      | cons j js =>
          by_cases hij : tailSlice i = tailSlice j
          · have hw : edfCheckWarnings (i :: is) (j :: js) =
                edfCheckWarnings is js := by
              simp [edfCheckWarnings, hij]
            have hc : mismatchCount (i :: is) (j :: js) = mismatchCount is js := by
              unfold mismatchCount
              rw [List.zip_cons_cons, List.countP_cons]
              simp [hij]
            rw [hw, hc]
            exact ih js
          · have hw : edfCheckWarnings (i :: is) (j :: js) =
                ["Image and label do not match."] := by
              simp [edfCheckWarnings, hij]
            have hc : 0 < mismatchCount (i :: is) (j :: js) := by
              unfold mismatchCount
              rw [List.zip_cons_cons, List.countP_cons]
              simp [hij]
            rw [hw]
            constructor
            · simp [hc]
            · simp

/-- C10: the local adapter stamps each sample with `image_id = [idx]` (the
positional index), the external adapter with the idx-th element of the
ascending sorted annotation-source id list — the idx-th smallest id — and in
both adapters distinct indices therefore yield distinct image ids. -/
theorem image_id_assignment :
    (∀ (Img : Type) (img : Img) (labelImg : LabelImage) (idx : Nat)
        (im : Img) (t : Target), edfGetItem img labelImg idx = some (im, t) →
        t.image_id = [(idx : Int)]) ∧
    (∀ (Img : Type) (imgsOf : Int → Img) (annsOf : Int → List Ann)
        (rawIds : List Int) (idx : Nat) (im : Img) (t : Target), rawIds.Nodup →
        crowdGetItem imgsOf annsOf (crowdImgIds rawIds) idx = some (im, t) →
        List.Sorted (· < ·) (crowdImgIds rawIds) ∧
        List.Perm (crowdImgIds rawIds) rawIds ∧
        ∃ hlt : idx < (crowdImgIds rawIds).length,
          t.image_id = [(crowdImgIds rawIds).get ⟨idx, hlt⟩]) ∧
    (∀ (Img : Type) (img : Img) (labelImg1 labelImg2 : LabelImage) (i j : Nat)
        (im1 im2 : Img) (t1 t2 : Target), i ≠ j →
        edfGetItem img labelImg1 i = some (im1, t1) →
        edfGetItem img labelImg2 j = some (im2, t2) →
        t1.image_id ≠ t2.image_id) ∧
    (∀ (Img : Type) (imgsOf : Int → Img) (annsOf : Int → List Ann)
        (rawIds : List Int) (i j : Nat) (im1 im2 : Img) (t1 t2 : Target),
        rawIds.Nodup → i ≠ j →
        crowdGetItem imgsOf annsOf (crowdImgIds rawIds) i = some (im1, t1) →
        crowdGetItem imgsOf annsOf (crowdImgIds rawIds) j = some (im2, t2) →
        t1.image_id ≠ t2.image_id) := by
  have hedf : ∀ (Img : Type) (img : Img) (labelImg : LabelImage) (idx : Nat)
      (im : Img) (t : Target), edfGetItem img labelImg idx = some (im, t) →
      t.image_id = [(idx : Int)] := by
    intro Img img labelImg idx im t h
    obtain ⟨-, A, -, ht⟩ := edfGetItem_fields h
    subst ht
    rfl
  refine ⟨hedf, ?_, ?_, ?_⟩
  · intro Img imgsOf annsOf rawIds idx im t hnd h
    exact ⟨crowdImgIds_sorted_lt hnd, crowdImgIds_perm rawIds,
      crowdGetItem_index_lt h⟩
  · intro Img img l1 l2 i j im1 im2 t1 t2 hij h1 h2
    rw [hedf Img img l1 i im1 t1 h1, hedf Img img l2 j im2 t2 h2]
    intro hcon
    rw [List.cons.injEq] at hcon
    exact hij (by exact_mod_cast hcon.1)
  · intro Img imgsOf annsOf rawIds i j im1 im2 t1 t2 hnd hij h1 h2
    obtain ⟨hlt1, he1⟩ := crowdGetItem_index_lt h1
    obtain ⟨hlt2, he2⟩ := crowdGetItem_index_lt h2
    rw [he1, he2]
    intro hcon
    rw [List.cons.injEq] at hcon
    have hget := (crowdImgIds_sorted_lt hnd).get_strictMono.injective hcon.1
    rw [Fin.mk.injEq] at hget
    exact hij hget

/-- Witness for C10: all four parts at concrete datasets — the local adapter
at index 4, the external adapter over raw ids `[9, 5]` (sorted to `[5, 9]`)
at indices 0 and 1. -/
theorem image_id_assignment_witness :
    (⟨[⟨0, 0, 1, 1⟩], [1], [[[true]]], [4], [1], [0]⟩ : Target).image_id =
      [(4 : Int)] ∧
    (List.Sorted (· < ·) (crowdImgIds [9, 5]) ∧
      List.Perm (crowdImgIds [9, 5]) [9, 5] ∧
      ∃ hlt : 0 < (crowdImgIds [9, 5]).length,
        (⟨[⟨0, 0, 1, 1⟩], [1], [[[true]]], [5], [1], [0]⟩ : Target).image_id =
          [(crowdImgIds [9, 5]).get ⟨0, hlt⟩]) ∧
    (⟨[⟨0, 0, 1, 1⟩], [1], [[[true]]], [0], [1], [0]⟩ : Target).image_id ≠
      (⟨[⟨0, 0, 1, 1⟩], [1], [[[true]]], [1], [1], [0]⟩ : Target).image_id ∧
    (⟨[⟨0, 0, 1, 1⟩], [1], [[[true]]], [5], [1], [0]⟩ : Target).image_id ≠
      (⟨[⟨0, 0, 1, 1⟩], [1], [[[true]]], [9], [1], [0]⟩ : Target).image_id :=
  ⟨image_id_assignment.1 Nat 0 [[1]] 4 0
      ⟨[⟨0, 0, 1, 1⟩], [1], [[[true]]], [4], [1], [0]⟩ rfl,
   image_id_assignment.2.1 Nat (fun _ => (0 : Nat)) (fun _ => [⟨0, 1, [[true]]⟩])
      [9, 5] 0 0 ⟨[⟨0, 0, 1, 1⟩], [1], [[[true]]], [5], [1], [0]⟩
      (by decide) rfl,
   image_id_assignment.2.2.1 Nat 0 [[1]] [[1]] 0 1 0 0
      ⟨[⟨0, 0, 1, 1⟩], [1], [[[true]]], [0], [1], [0]⟩
      ⟨[⟨0, 0, 1, 1⟩], [1], [[[true]]], [1], [1], [0]⟩
      (by decide) rfl rfl,
   image_id_assignment.2.2.2 Nat (fun _ => (0 : Nat)) (fun _ => [⟨0, 1, [[true]]⟩])
      [9, 5] 0 1 0 0
      ⟨[⟨0, 0, 1, 1⟩], [1], [[[true]]], [5], [1], [0]⟩
      ⟨[⟨0, 0, 1, 1⟩], [1], [[[true]]], [9], [1], [0]⟩
      (by decide) (by decide) rfl rfl⟩

end SatDatasets
